import Mathlib

/-!
# Verification of the `tlru_cache` engine (src/tlru_cache/__init__.py)

Shallow embedding of the TLRU cache engine:

* the ordered store (`collections.OrderedDict` of key ↦ (value, insertion
  time)) is modelled as an association list in recency order, with the
  least-recently-used entry at the head and the most-recently-used entry at
  the tail (`OrderedDict.popitem(last=False)` pops the head,
  `move_to_end(key, last=True)` moves an entry to the tail, plain
  assignment of an absent key appends at the tail);
* timestamps (`time.time()` results) are modelled as integers, passed
  explicitly into each operation that reads the clock;
* the wrapped user function is modelled per call by the outcome
  `Except E R` its invocation would produce: `.ok v` for a normal return
  and `.error e` for a raised exception (which in Python propagates out of
  the `with lock:` block, leaving the already-performed state mutations in
  place);
* the four wrapper variants selected once in `_tlru_cache_wrapper`
  (maxsize == 0 / maxsize is None / lifetime is None or lifetime < 0 /
  timed LRU) are modelled as four call functions plus the dispatch.

Key construction (`_make_key`) is modelled separately over a type of
Python values with Python's equality (where `1 == True`), to compare the
single-element fast path against the plain tuple key.

Locking is modelled by the sequence of events each wrapper variant
performs, in source order, with explicit lock acquire/release events.
-/

namespace TlruCache

/-- The ordered store: `collections.OrderedDict[Hashable, Tuple[Hashable, float]]`
(`__init__.py` line 151), as an association list of (key, (value, time-added))
in recency order: head = least recently used, tail = most recently used. -/
abbrev Store (K R : Type) := List (K × R × Int)

variable {K R E : Type}

/-- `cache.get(key, default)` (line 162/187/203/226): the first entry with the
given key, if any. -/
def odGet [DecidableEq K] : Store K R → K → Option (R × Int)
  | [], _ => none
  | (k, v) :: rest, key => if k = key then some v else odGet rest key

/-- `cache[key] = value` (lines 193/216/244): replace the value in place when
the key is present (an `OrderedDict` assignment keeps the position), else
append at the most-recently-used end. -/
def odSet [DecidableEq K] : Store K R → K → R × Int → Store K R
  | [], key, v => [(key, v)]
  | (k, w) :: rest, key, v =>
      if k = key then (k, v) :: rest else (k, w) :: odSet rest key v

/-- `cache.pop(key)` (line 236): remove the entry with the given key. -/
def odPop [DecidableEq K] : Store K R → K → Store K R
  | [], _ => []
  | (k, w) :: rest, key => if k = key then rest else (k, w) :: odPop rest key

/-- `cache.move_to_end(key, last=True)` (lines 164/207/232): move the entry
with the given key to the most-recently-used end (no-op when absent; in the
source it is only called on present keys). -/
def odMoveToEnd [DecidableEq K] (s : Store K R) (key : K) : Store K R :=
  match odGet s key with
  | some v => odPop s key ++ [(key, v)]
  | none => s

/-- `cache.popitem(last=False)` (lines 211/239): drop the least-recently-used
entry, i.e. the head of the recency list. -/
def odPopFront (s : Store K R) : Store K R := s.tail

/-- The mutable closure state of `_tlru_cache_wrapper`: the ordered store and
the `hits`/`misses`/`expired` counters (lines 151-159). -/
structure CacheState (K R : Type) where
  store : Store K R
  hits : Nat
  misses : Nat
  expired : Nat
deriving Repr, DecidableEq

/-- The fresh state built by `_tlru_cache_wrapper` (lines 151-159): empty
store, all counters zero. -/
def initState : CacheState K R := ⟨[], 0, 0, 0⟩

/-- The `maxsize is not None and cache_len() >= maxsize` size-eviction step
(lines 210-211 and 238-239): when the store has reached a finite `maxsize`,
drop the least-recently-used entry. -/
def evictIfFull : Option Nat → Store K R → Store K R
  | none, s => s
  | some m, s => if m ≤ s.length then odPopFront s else s

/-- The shared tail of every miss path (lines 213-216 / 241-244):
`misses += 1`, invoke the user function, and on normal return store
`(result, t)` (where `t` is `0.0` for the untimed variants and `now` for the
timed variant). A raised exception leaves the store untouched and the
incremented miss counter in place. -/
def storeMiss [DecidableEq K] (key : K) (comp : Except E R) (t : Int)
    (st : CacheState K R) : Except E R × CacheState K R :=
  let st := { st with misses := st.misses + 1 }
  match comp with
  | .ok v => (.ok v, { st with store := odSet st.store key (v, t) })
  | .error e => (.error e, st)

/-- The `maxsize == 0` wrapper (lines 169-175): no caching, count a miss and
invoke the user function directly. -/
def disabledCall (comp : Except E R) (st : CacheState K R) :
    Except E R × CacheState K R :=
  (comp, { st with misses := st.misses + 1 })

/-- The `maxsize is None` wrapper (lines 178-194): unbounded cache with no
expiry check; a present key is always a hit (no recency move, no freshness
check) and new entries are stored with timestamp `0.0` (line 193,
"Time data not needed/used"). -/
def unboundedCall [DecidableEq K] (key : K) (comp : Except E R)
    (st : CacheState K R) : Except E R × CacheState K R :=
  match odGet st.store key with
  | some (r, _) => (.ok r, { st with hits := st.hits + 1 })
  | none => storeMiss key comp 0 st

/-- The basic LRU wrapper (lines 196-217, selected when `lifetime is None or
lifetime < 0`): a present key is a hit that is moved to the most-recently-used
end; on a miss the least-recently-used entry is evicted first when the store
is full, then the fresh value is stored with timestamp `0.0`. -/
def basicCall [DecidableEq K] (maxsize : Option Nat) (key : K)
    (comp : Except E R) (st : CacheState K R) : Except E R × CacheState K R :=
  match odGet st.store key with
  | some (r, _) =>
      (.ok r, { st with hits := st.hits + 1, store := odMoveToEnd st.store key })
  | none =>
      storeMiss key comp 0 { st with store := evictIfFull maxsize st.store }

/-- The timed LRU wrapper (lines 219-245): on a present key whose age
`now - time_added` is within `lifetime`, a hit with a recency move; on a
stale present key, pop it and `expired += 1`, then fall through to the miss
path (no size eviction: the stale removal already freed the slot); on an
absent key, size-evict when full and fall through to the miss path. The
fresh value is stored with timestamp `now`. -/
def timedCall [DecidableEq K] (maxsize : Option Nat) (lifetime : Int)
    (key : K) (comp : Except E R) (now : Int) (st : CacheState K R) :
    Except E R × CacheState K R :=
  match odGet st.store key with
  | some (r, timeAdded) =>
      if now - timeAdded ≤ lifetime then
        (.ok r, { st with hits := st.hits + 1, store := odMoveToEnd st.store key })
      else
        storeMiss key comp now
          { st with store := odPop st.store key, expired := st.expired + 1 }
  | none =>
      storeMiss key comp now { st with store := evictIfFull maxsize st.store }

/-- The four wrapper variants of `_tlru_cache_wrapper`. -/
inductive Variant where
  | disabled
  | unbounded
  | basicLRU
  | timedLRU
deriving Repr, DecidableEq

/-- The variant selection of `_tlru_cache_wrapper` (lines 169, 178, 196, 219):
`if maxsize == 0 ... elif maxsize is None ... elif lifetime is None or
lifetime < 0 ... else ...`. -/
def selectVariant (maxsize : Option Nat) (lifetime : Option Int) : Variant :=
  if maxsize = some 0 then .disabled
  else if maxsize = none then .unbounded
  else if (match lifetime with | none => true | some l => decide (l < 0)) then
    .basicLRU
  else .timedLRU

/-- One call of the wrapper returned by `_tlru_cache_wrapper`: dispatch to the
variant chosen once at construction, with the clock reading `now` and the
user function's outcome `comp` for this call. -/
def cacheCall [DecidableEq K] (maxsize : Option Nat) (lifetime : Option Int)
    (key : K) (comp : Except E R) (now : Int) (st : CacheState K R) :
    Except E R × CacheState K R :=
  match selectVariant maxsize lifetime with
  | .disabled => disabledCall comp st
  | .unbounded => unboundedCall key comp st
  | .basicLRU => basicCall maxsize key comp st
  | .timedLRU => timedCall maxsize (lifetime.getD 0) key comp now st

/-- Run a sequence of calls (each a key, the user function's outcome for that
call, and the clock reading at that call) through the wrapper, keeping the
final state. -/
def runCalls [DecidableEq K] (maxsize : Option Nat) (lifetime : Option Int) :
    List (K × Except E R × Int) → CacheState K R → CacheState K R
  | [], st => st
  | (key, comp, now) :: rest, st =>
      runCalls maxsize lifetime rest (cacheCall maxsize lifetime key comp now st).2

/-- The `_TLRUCacheInfo` named tuple (lines 28-54). -/
structure TLRUCacheInfo where
  hits : Nat
  misses : Nat
  maxsize : Option Nat
  currsize : Nat
  lifetime : Option Int
  expired : Nat
deriving Repr, DecidableEq

/-- The expiry sweep of `cache_info` (lines 255-257): remove every entry with
`lifetime is not None and now - time_added > lifetime`; order of survivors is
preserved. -/
def sweep (lifetime : Option Int) (now : Int) (s : Store K R) : Store K R :=
  match lifetime with
  | none => s
  | some l => s.filter (fun e => decide (now - e.2.2 ≤ l))

/-- `cache_info()` (lines 247-259): under the lock, sweep expired entries,
then snapshot `(hits, misses, maxsize, currsize, lifetime, expired)`. Returns
the post-sweep state together with the snapshot. -/
def cache_info (maxsize : Option Nat) (lifetime : Option Int) (now : Int)
    (st : CacheState K R) : CacheState K R × TLRUCacheInfo :=
  let store := sweep lifetime now st.store
  ({ st with store := store },
   ⟨st.hits, st.misses, maxsize, store.length, lifetime, st.expired⟩)

/-- `cache_clear()` (lines 261-266): empty the store and reset the counters. -/
def cache_clear (st : CacheState K R) : CacheState K R :=
  let _ := st
  initState

/-! ## Lock discipline

Each wrapper variant performs a fixed sequence of steps per call; the order
of those steps, including where the lock is taken (`with lock:`) and
released (end of the `with` block, also on an exception), is read off the
source. We record that order as a list of events and ask, for each event,
whether it always happens while the lock is held. -/

/-- One step of a wrapper call, in source order. -/
inductive Event where
  /-- entering `with lock:` -/
  | evAcquire
  /-- leaving the `with lock:` block (also on `return` or an exception) -/
  | evRelease
  /-- `key = _make_key(args, kwargs, typed)` -/
  | evBuildKey
  /-- `result, time_added = cache_get(key, default)` -/
  | evLookup
  /-- `now - time_added <= lifetime` freshness check -/
  | evFreshCheck
  /-- `cache_move(key, last=True)` recency-order update -/
  | evMoveEnd
  /-- `cache.popitem(last=False)` size-based eviction -/
  | evEvict
  /-- `cache.pop(key)` removal of a stale entry -/
  | evRemoveStale
  /-- a `hits`/`misses`/`expired` counter increment -/
  | evStats
  /-- `result = user_function(*args, **kwargs)` -/
  | evInvoke
  /-- `cache[key] = result, t` insertion -/
  | evInsert
deriving Repr, DecidableEq

open Event

/-- The step sequence of one call of the `maxsize is None` wrapper
(lines 182-194): the whole body, key construction included, runs inside
`with lock:`. `hit` says whether the key was found; `compOk` whether the user
function returned normally (on an exception the `with` block still releases
the lock and the insertion is skipped). -/
def unboundedCallEvents (hit compOk : Bool) : List Event :=
  [evAcquire, evBuildKey, evLookup] ++
    (if hit then [evStats, evRelease]
     else [evStats, evInvoke] ++
       (if compOk then [evInsert, evRelease] else [evRelease]))

/-- The step sequence of one call of the basic LRU wrapper (lines 198-217):
key construction precedes `with lock:`; everything else, the call of
`user_function` included, happens inside it. `needEvict` says whether the
size-eviction branch of line 210 fires. -/
def basicCallEvents (hit needEvict compOk : Bool) : List Event :=
  [evBuildKey, evAcquire, evLookup] ++
    (if hit then [evStats, evMoveEnd, evRelease]
     else (if needEvict then [evEvict] else []) ++ [evStats, evInvoke] ++
       (if compOk then [evInsert, evRelease] else [evRelease]))

/-- The step sequence of one call of the timed LRU wrapper (lines 221-245):
key construction precedes `with lock:`; everything else, the call of
`user_function` included, happens inside it. `present`/`fresh` describe the
lookup outcome; on a stale hit both `expired` and `misses` are incremented
(two stats events). -/
def timedCallEvents (present fresh needEvict compOk : Bool) : List Event :=
  [evBuildKey, evAcquire, evLookup] ++
    (if present then
      if fresh then [evFreshCheck, evStats, evMoveEnd, evRelease]
      else [evFreshCheck, evRemoveStale, evStats, evStats, evInvoke] ++
        (if compOk then [evInsert, evRelease] else [evRelease])
     else (if needEvict then [evEvict] else []) ++ [evStats, evInvoke] ++
       (if compOk then [evInsert, evRelease] else [evRelease]))

/-- Every occurrence of `target` in the trace happens at positive lock depth
(`d` acquires minus releases so far). -/
def heldAt (target : Event) : List Event → Nat → Bool
  | [], _ => true
  | e :: rest, d =>
      (if e = target then decide (0 < d) else true) &&
      heldAt target rest
        (if e = evAcquire then d + 1 else if e = evRelease then d - 1 else d)

/-- Every occurrence of `target` in the trace happens at lock depth zero,
i.e. with the lock not held. -/
def freeAt (target : Event) : List Event → Nat → Bool
  | [], _ => true
  | e :: rest, d =>
      (if e = target then decide (d = 0) else true) &&
      freeAt target rest
        (if e = evAcquire then d + 1 else if e = evRelease then d - 1 else d)

/-- `target` happens only while the lock is held, over a whole trace. -/
def heldDuring (target : Event) (tr : List Event) : Bool := heldAt target tr 0

/-- `target` happens only while the lock is free, over a whole trace. -/
def freeDuring (target : Event) (tr : List Event) : Bool := freeAt target tr 0

/-! ## Key construction (`_make_key`, lines 87-127)

Keys are built from Python values with Python's equality semantics,
under which `1 == True` holds while `type(True)` is `bool`, not `int`. -/

/-- The runtime type of a modelled Python value (`type(v)`). -/
inductive PyType where
  | intT | boolT | strT | tupleT | markerT | typeT
deriving Repr, DecidableEq

/-- A hashable Python value as it can occur in a cache key: integers,
booleans, strings, the unique `kwd_mark` sentinel object, type objects
(appended by `typed=True`), and tuples (also the `(name, value)` items of
`kwargs.items()`). -/
inductive PyVal where
  | intVal : Int → PyVal
  | boolVal : Bool → PyVal
  | strVal : String → PyVal
  | markerVal : PyVal
  | typeVal : PyType → PyVal
  | tupleVal : List PyVal → PyVal
deriving Repr

mutual

/-- Python `==` on modelled values: numeric cross-type equality identifies
`True` with `1` and `False` with `0`; tuples compare pointwise; the sentinel
marker equals only itself. -/
def pyEq : PyVal → PyVal → Bool
  | .intVal m, .intVal n => m = n
  | .intVal m, .boolVal b => m = (if b then 1 else 0)
  | .boolVal b, .intVal n => (if b then (1 : Int) else 0) = n
  | .boolVal a, .boolVal b => a = b
  | .strVal s, .strVal t => s = t
  | .markerVal, .markerVal => true
  | .typeVal a, .typeVal b => a = b
  | .tupleVal xs, .tupleVal ys => pyEqList xs ys
  | _, _ => false

/-- Python `==` on tuples: equal length and pointwise equal. -/
def pyEqList : List PyVal → List PyVal → Bool
  | [], [] => true
  | x :: xs, y :: ys => pyEq x y && pyEqList xs ys
  | _, _ => false

end

/-- `type(v)` on modelled values. -/
def typeOf : PyVal → PyType
  | .intVal _ => .intT
  | .boolVal _ => .boolT
  | .strVal _ => .strT
  | .markerVal => .markerT
  | .typeVal _ => .typeT
  | .tupleVal _ => .tupleT

/-- `fasttypes = {int, str}` (line 89). Note Python set membership
`type(key[0]) in fasttypes` compares types for equality, so `bool` (a
subclass of `int`, but a distinct type) is not a member. -/
def fasttype (t : PyType) : Bool := t = .intT || t = .strT

/-- The key sequence built by `_make_key` before the single-element fast
path (lines 118-124): positional arguments, then (when keyword arguments
are present) the `kwd_mark` sentinel followed by the `(name, value)` items,
then (when `typed`) the types of the positional values and the types of the
keyword values. -/
def makeKeySeq (args : List PyVal) (kwargs : List (String × PyVal))
    (typed : Bool) : List PyVal :=
  let key := args
  let key := if kwargs.isEmpty then key
    else key ++ .markerVal :: kwargs.map (fun p => .tupleVal [.strVal p.1, p.2])
  if typed then
    let key := key ++ args.map (fun v => .typeVal (typeOf v))
    if kwargs.isEmpty then key
    else key ++ kwargs.map (fun p => .typeVal (typeOf p.2))
  else key

/-- `_make_key` (lines 87-127): the key sequence as a tuple, except that a
single-element untyped key whose element has a fast type is unwrapped to the
bare element (lines 125-126). -/
def make_key (args : List PyVal) (kwargs : List (String × PyVal))
    (typed : Bool) : PyVal :=
  let key := makeKeySeq args kwargs typed
  if typed then .tupleVal key
  else match key with
    | [v] => if fasttype (typeOf v) then v else .tupleVal [v]
    | _ => .tupleVal key

/-- Modelled from the spec (§4.1): the key builder without the single-element
unwrapping optimization, always returning the full sequence as a tuple. Used
only to compare the fast path against the plain key. -/
def make_key_full (args : List PyVal) (kwargs : List (String × PyVal))
    (typed : Bool) : PyVal :=
  .tupleVal (makeKeySeq args kwargs typed)

/-! ## Constructor argument dispatch (`tlru_cache`, lines 400-421) -/

/-- The first / second / third configuration argument of `tlru_cache`, by its
Python runtime type. The payloads are irrelevant to the dispatch. -/
inductive PyArg where
  | intArg : Int → PyArg
  | noneArg : PyArg
  | callableArg : PyArg
  | floatArg : PyArg
  | strArg : String → PyArg
  | boolArg : Bool → PyArg
deriving Repr, DecidableEq

/-- `isinstance(x, int)`: `bool` is a subclass of `int` in Python, so
booleans also satisfy it. -/
def isInstInt : PyArg → Bool
  | .intArg _ => true
  | .boolArg _ => true
  | _ => false

/-- `callable(x)`. -/
def isCallable : PyArg → Bool
  | .callableArg => true
  | _ => false

/-- `isinstance(x, float)`: neither integers nor booleans satisfy it. -/
def isInstFloat : PyArg → Bool
  | .floatArg => true
  | _ => false

/-- `isinstance(x, bool)`. -/
def isInstBool : PyArg → Bool
  | .boolArg _ => true
  | _ => false

/-- The argument dispatch of `tlru_cache` (lines 400-421): returns `true`
exactly when the `TypeError` of line 420 is raised. Branch A accepts any
integer `maxsize`; branch B accepts a callable `maxsize` when `lifetime` is a
float and `typed` a boolean; the error branch fires when `maxsize` is not
`None`; otherwise the decorating function is returned. -/
def tlru_cache_raises (maxsize lifetime typed : PyArg) : Bool :=
  if isInstInt maxsize then false
  else if isCallable maxsize && isInstFloat lifetime && isInstBool typed then
    false
  else if maxsize ≠ .noneArg then true
  else false

/-! ## Helper lemmas about the ordered store -/

lemma odSet_length_le [DecidableEq K] (s : Store K R) (k : K) (v : R × Int) :
    (odSet s k v).length ≤ s.length + 1 := by
  induction s with
  | nil => simp [odSet]
  | cons hd tl ih =>
      obtain ⟨k', w⟩ := hd
      simp only [odSet]
      split
      · simp
      · simp
        omega

lemma odPop_length_of_get [DecidableEq K] {s : Store K R} {k : K} {v : R × Int}
    (h : odGet s k = some v) : (odPop s k).length + 1 = s.length := by
  induction s with
  | nil => simp [odGet] at h
  | cons hd tl ih =>
      obtain ⟨k', w⟩ := hd
      simp only [odGet] at h
      simp only [odPop]
      by_cases hk : k' = k
      · simp [hk]
      · simp only [if_neg hk] at h ⊢
        simpa using ih h

lemma odMoveToEnd_length [DecidableEq K] (s : Store K R) (k : K) :
    (odMoveToEnd s k).length = s.length := by
  unfold odMoveToEnd
  cases h : odGet s k with
  | none => rfl
  | some v =>
      have := odPop_length_of_get h
      simp
      omega

lemma odGet_none_tail [DecidableEq K] {s : Store K R} {k : K}
    (h : odGet s k = none) : odGet s.tail k = none := by
  cases s with
  | nil => simpa using h
  | cons hd tl =>
      obtain ⟨k', w⟩ := hd
      simp only [odGet] at h
      by_cases hk : k' = k
      · simp [hk] at h
      · simpa [List.tail] using (by simpa [if_neg hk] using h : odGet tl k = none)

lemma odGet_none_evictIfFull [DecidableEq K] {s : Store K R} {k : K}
    (maxsize : Option Nat) (h : odGet s k = none) :
    odGet (evictIfFull maxsize s) k = none := by
  cases maxsize with
  | none => simpa [evictIfFull] using h
  | some m =>
      simp only [evictIfFull, odPopFront]
      split
      · exact odGet_none_tail h
      · exact h

lemma mem_odSet [DecidableEq K] {s : Store K R} {k : K} {w : R × Int}
    {e : K × R × Int} (h : e ∈ odSet s k w) : e ∈ s ∨ e = (k, w) := by
  induction s with
  | nil => simpa [odSet] using h
  | cons hd tl ih =>
      obtain ⟨k', w'⟩ := hd
      simp only [odSet] at h
      split at h
      · rcases List.mem_cons.mp h with h1 | h1
        · right; rw [h1]; simp_all
        · left; exact List.mem_cons_of_mem _ h1
      · rcases List.mem_cons.mp h with h1 | h1
        · left; simp [h1]
        · rcases ih h1 with h2 | h2
          · exact Or.inl (List.mem_cons_of_mem _ h2)
          · exact Or.inr h2

/-! ## Helper lemmas about variant selection -/

lemma selectVariant_zero (lifetime : Option Int) :
    selectVariant (some 0) lifetime = .disabled := by
  simp [selectVariant]

lemma selectVariant_unbounded (lifetime : Option Int) :
    selectVariant none lifetime = .unbounded := by
  simp [selectVariant]

lemma selectVariant_basic_of_none (m : Nat) :
    selectVariant (some (m + 1)) none = .basicLRU := by
  simp [selectVariant]

lemma selectVariant_timed (m : Nat) {l : Int} (h : 0 ≤ l) :
    selectVariant (some (m + 1)) (some l) = .timedLRU := by
  simp [selectVariant, Int.not_lt.mpr h]

/-! ## Helper lemmas about single calls -/

lemma storeMiss_store_length [DecidableEq K] (key : K) (comp : Except E R)
    (t : Int) (st : CacheState K R) :
    ((storeMiss key comp t st).2).store.length ≤ st.store.length + 1 := by
  unfold storeMiss
  cases comp with
  | ok v => simpa using odSet_length_le st.store key (v, t)
  | error e => simp

lemma evictIfFull_length {m : Nat} {s : Store K R} (hm : 1 ≤ m)
    (h : s.length ≤ m) : (evictIfFull (some m) s).length + 1 ≤ m := by
  simp only [evictIfFull, odPopFront]
  split
  · simp
    omega
  · omega

lemma cacheCall_store_length [DecidableEq K] {m : Nat} (lifetime : Option Int)
    (key : K) (comp : Except E R) (now : Int) (st : CacheState K R)
    (h : st.store.length ≤ m) :
    ((cacheCall (some m) lifetime key comp now st).2).store.length ≤ m := by
  by_cases hm : m = 0
  · subst hm
    simp only [cacheCall, selectVariant_zero, disabledCall]
    simpa using h
  obtain ⟨m', rfl⟩ : ∃ m', m = m' + 1 := ⟨m - 1, by omega⟩
  have hBasic :
      ((basicCall (K := K) (R := R) (E := E) (some (m' + 1)) key comp st).2).store.length
        ≤ m' + 1 := by
    unfold basicCall
    split
    · simpa [odMoveToEnd_length] using h
    · have hsm := storeMiss_store_length (E := E) key comp 0
        { st with store := evictIfFull (some (m' + 1)) st.store }
      have hev := evictIfFull_length (m := m' + 1) (by omega) h
      simp only at hsm
      omega
  have hTimed : ∀ l : Int,
      ((timedCall (K := K) (R := R) (E := E) (some (m' + 1)) l key comp now st).2).store.length
        ≤ m' + 1 := by
    intro l
    unfold timedCall
    split
    · rename_i r t hget
      split
      · simpa [odMoveToEnd_length] using h
      · have hpop := odPop_length_of_get hget
        have hsm := storeMiss_store_length (E := E) key comp now
          { st with store := odPop st.store key, expired := st.expired + 1 }
        simp only at hsm
        omega
    · have hsm := storeMiss_store_length (E := E) key comp now
        { st with store := evictIfFull (some (m' + 1)) st.store }
      have hev := evictIfFull_length (m := m' + 1) (by omega) h
      simp only at hsm
      omega
  unfold cacheCall
  cases lifetime with
  | none => simpa [selectVariant_basic_of_none] using hBasic
  | some l =>
      by_cases hl : l < 0
      · have hsel : selectVariant (some (m' + 1)) (some l) = .basicLRU := by
          simp [selectVariant, hl]
        simpa [hsel] using hBasic
      · have hsel := selectVariant_timed (l := l) m' (Int.not_lt.mp hl)
        simpa [hsel] using hTimed l

lemma runCalls_store_length [DecidableEq K] {m : Nat} (lifetime : Option Int)
    (calls : List (K × Except E R × Int)) (st : CacheState K R)
    (h : st.store.length ≤ m) :
    ((runCalls (some m) lifetime calls st).store).length ≤ m := by
  induction calls generalizing st with
  | nil => simpa [runCalls] using h
  | cons c rest ih =>
      obtain ⟨key, comp, now⟩ := c
      exact ih _ (cacheCall_store_length lifetime key comp now st h)

/-! ## Claim theorems -/

/-- C4: for every cache with finite `maxsize` and every sequence of calls
(each given by its key, the outcome the user function would produce, and the
clock reading), the number of stored entries is at most `maxsize` after each
call completes: running any call sequence from the fresh state leaves at most
`maxsize` entries, and since the sequence is arbitrary this holds after every
prefix, i.e. after every call. -/
theorem bounded_size_invariant {K R E : Type} [DecidableEq K] (m : Nat)
    (lifetime : Option Int) (calls : List (K × Except E R × Int)) :
    ((runCalls (some m) lifetime calls (initState (K := K) (R := R))).store).length ≤ m :=
  runCalls_store_length lifetime calls initState (by simp [initState])

/-- C5: recency order and LRU eviction on the basic LRU variant with
`maxsize = 5`. Calling keys 1..5 (5 misses), then key 3 (a hit, which
protects it), then key 6 (which evicts key 1, the least recently used) leaves
exactly keys 2, 4, 5, 3, 6 in recency order with key 1 gone and key 3 still
present; a subsequent call with key 1 is then a miss (misses reach 7, hits
stay at 1) and evicts key 2, the new least-recently-used entry. -/
theorem lru_eviction_scenario :
    runCalls (K := Nat) (R := Int) (E := Unit) (some 5) none
        [(1, .ok 1, 0), (2, .ok 2, 0), (3, .ok 3, 0), (4, .ok 4, 0),
         (5, .ok 5, 0), (3, .ok 3, 0), (6, .ok 6, 0)] initState =
      ⟨[(2, (2, 0)), (4, (4, 0)), (5, (5, 0)), (3, (3, 0)), (6, (6, 0))], 1, 6, 0⟩ ∧
    odGet (K := Nat) (R := Int)
        [(2, (2, 0)), (4, (4, 0)), (5, (5, 0)), (3, (3, 0)), (6, (6, 0))] 1 = none ∧
    odGet (K := Nat) (R := Int)
        [(2, (2, 0)), (4, (4, 0)), (5, (5, 0)), (3, (3, 0)), (6, (6, 0))] 3 = some (3, 0) ∧
    runCalls (K := Nat) (R := Int) (E := Unit) (some 5) none
        [(1, .ok 1, 0), (2, .ok 2, 0), (3, .ok 3, 0), (4, .ok 4, 0),
         (5, .ok 5, 0), (3, .ok 3, 0), (6, .ok 6, 0), (1, .ok 1, 0)] initState =
      ⟨[(4, (4, 0)), (5, (5, 0)), (3, (3, 0)), (6, (6, 0)), (1, (1, 0))], 1, 7, 0⟩ := by
  decide

/-- C1 (evidence of the divergence): with unbounded `maxsize` (`None`) and the
finite lifetime 60, a key cached at time 1000 and called again at time 2000
— far beyond its lifetime — is served from the cache as a hit of the stale
value 10 with `expired` still 0 and `misses` still 1, instead of being
expired and recomputed (the recomputation would have produced 20): the
`maxsize is None` wrapper never consults `lifetime`. -/
theorem unbounded_serves_stale_entry :
    cacheCall (K := Nat) (R := Int) (E := Unit) none (some 60) 0 (.ok 20) 2000
        ((cacheCall (K := Nat) (R := Int) (E := Unit) none (some 60) 0
          (.ok 10) 1000 initState).2) =
      (.ok 10, ⟨[(0, (10, 0))], 1, 1, 0⟩) := by
  rfl

/-- C3: timed-LRU variant (finite `maxsize ≥ 1`, non-negative lifetime),
for a present key. If its age is within the lifetime, the call is a hit:
`hits` goes up by one, the entry moves to the most-recently-used end, and the
stored value is returned — for every possible outcome of the user function,
i.e. without invoking it. If its age exceeds the lifetime, the stale entry
is removed, `expired` and `misses` each go up by exactly one, and the
recomputed value is stored fresh at the most-recently-used end with the
current timestamp. -/
theorem timed_call_hit_and_stale {K R E : Type} [DecidableEq K] (m : Nat)
    (l : Int) (key : K) (r : R) (t now : Int) (comp : Except E R)
    (st : CacheState K R) (hl : 0 ≤ l)
    (hget : odGet st.store key = some (r, t)) :
    (now - t ≤ l →
      cacheCall (some (m + 1)) (some l) key comp now st =
        (.ok r, { st with
                  hits := st.hits + 1
                  store := odMoveToEnd st.store key })) ∧
    (l < now - t → ∀ v, comp = .ok v →
      cacheCall (some (m + 1)) (some l) key comp now st =
        (.ok v, { st with
                  misses := st.misses + 1
                  expired := st.expired + 1
                  store := odSet (odPop st.store key) key (v, now) })) := by
  have hsel := selectVariant_timed (l := l) m hl
  constructor
  · intro hfresh
    simp [cacheCall, hsel, timedCall, hget, if_pos hfresh]
    intro hcon
    exact absurd hcon (by omega)
  · intro hstale v hv
    subst hv
    simp [cacheCall, hsel, timedCall, hget, storeMiss]
    omega

/-- Witness for C3: a concrete fresh hit. In the one-entry cache holding
value 7 for key 0 (inserted at time 0, lifetime 5), a call at time 3 whose
computation would fail returns the cached 7 as a hit without touching the
computation. -/
theorem timed_call_hit_and_stale_witness :
    ((0 : Int) ≤ 5 ∧
      odGet (K := Nat) (R := Int) [(0, (7, 0))] 0 = some (7, 0)) ∧
    cacheCall (K := Nat) (R := Int) (E := Unit) (some 1) (some 5) 0
        (.error ()) 3 ⟨[(0, (7, 0))], 0, 0, 0⟩ =
      (.ok 7, ⟨[(0, (7, 0))], 1, 0, 0⟩) := by
  refine ⟨⟨by decide, by decide⟩, ?_⟩
  have h := timed_call_hit_and_stale (K := Nat) (R := Int) (E := Unit)
    0 5 0 7 0 3 (.error ()) ⟨[(0, (7, 0))], 0, 0, 0⟩ (by decide) (by decide)
  exact h.1 (by decide)

/-- C6: when the user function fails, the failure propagates as the call's
outcome, `misses` has already been incremented and is not rolled back,
`hits` is unchanged, nothing is inserted for the key, and the store is
exactly what the eviction (absent key) or expiry removal (stale key, timed
variant, with `expired` incremented) left behind before the invocation. -/
theorem computation_failure {K R E : Type} [DecidableEq K]
    (maxsize : Option Nat) (lifetime : Option Int) (key : K) (e : E)
    (now : Int) (st : CacheState K R) :
    (odGet st.store key = none →
      cacheCall maxsize lifetime key (.error e) now st =
        (.error e, { st with
          misses := st.misses + 1
          store := (match selectVariant maxsize lifetime with
            | .disabled => st.store
            | .unbounded => st.store
            | .basicLRU => evictIfFull maxsize st.store
            | .timedLRU => evictIfFull maxsize st.store) }) ∧
      odGet ((cacheCall maxsize lifetime key (.error e) now st).2).store key
        = none) ∧
    (∀ (r : R) (t l : Int) (m : Nat), maxsize = some (m + 1) →
      lifetime = some l → 0 ≤ l → odGet st.store key = some (r, t) →
      l < now - t →
      cacheCall maxsize lifetime key (.error e) now st =
        (.error e, { st with
                     misses := st.misses + 1
                     expired := st.expired + 1
                     store := odPop st.store key })) := by
  constructor
  · intro hnone
    rcases hsel : selectVariant maxsize lifetime with _ | _ | _ | _
    · refine ⟨by simp [cacheCall, hsel, disabledCall], ?_⟩
      simpa [cacheCall, hsel, disabledCall] using hnone
    · refine ⟨by simp [cacheCall, hsel, unboundedCall, hnone, storeMiss], ?_⟩
      simp [cacheCall, hsel, unboundedCall, hnone, storeMiss]
    · refine ⟨by simp [cacheCall, hsel, basicCall, hnone, storeMiss], ?_⟩
      simp [cacheCall, hsel, basicCall, hnone, storeMiss]
      exact odGet_none_evictIfFull maxsize hnone
    · refine ⟨by simp [cacheCall, hsel, timedCall, hnone, storeMiss], ?_⟩
      simp [cacheCall, hsel, timedCall, hnone, storeMiss]
      exact odGet_none_evictIfFull maxsize hnone
  · intro r t l m hms hlt hl hget hstale
    subst hms
    subst hlt
    have hsel := selectVariant_timed (l := l) m hl
    simp [cacheCall, hsel, timedCall, hget, storeMiss]
    omega

/-- Witness for C6: a concrete failing miss on the basic LRU variant. With a
full two-entry cache and an absent key 5, the failing call evicts the
least-recently-used entry, counts the miss, propagates the error, and stores
nothing for key 5. -/
theorem computation_failure_witness :
    odGet (K := Nat) (R := Int) [(1, (10, 0)), (2, (20, 0))] 5 = none ∧
    (cacheCall (K := Nat) (R := Int) (E := Unit) (some 2) none 5 (.error ()) 0
        ⟨[(1, (10, 0)), (2, (20, 0))], 0, 2, 0⟩ =
      (.error (), ⟨[(2, (20, 0))], 0, 3, 0⟩) ∧
      odGet ((cacheCall (K := Nat) (R := Int) (E := Unit) (some 2) none 5
        (.error ()) 0 ⟨[(1, (10, 0)), (2, (20, 0))], 0, 2, 0⟩).2).store 5
        = none) := by
  have h := computation_failure (K := Nat) (R := Int) (E := Unit)
    (some 2) none 5 () 0 ⟨[(1, (10, 0)), (2, (20, 0))], 0, 2, 0⟩
  exact ⟨by decide, (h.1 (by decide)).1, (h.1 (by decide)).2⟩

/-- C8: `cache_info` with expiry enabled. The post-sweep store contains
exactly the entries of the old store whose age is within the lifetime (so
every over-age entry is removed); the `hits`, `misses` and `expired`
counters are untouched; and the returned snapshot is
`(hits, misses, maxsize, size-after-sweep, lifetime, expired)`. -/
theorem cache_info_sweep {K R : Type} [DecidableEq K] (maxsize : Option Nat)
    (l now : Int) (st : CacheState K R) :
    (∀ e ∈ ((cache_info maxsize (some l) now st).1).store,
        e ∈ st.store ∧ now - e.2.2 ≤ l) ∧
    (∀ e ∈ st.store, now - e.2.2 ≤ l →
        e ∈ ((cache_info maxsize (some l) now st).1).store) ∧
    ((cache_info maxsize (some l) now st).1).hits = st.hits ∧
    ((cache_info maxsize (some l) now st).1).misses = st.misses ∧
    ((cache_info maxsize (some l) now st).1).expired = st.expired ∧
    (cache_info maxsize (some l) now st).2 =
      ⟨st.hits, st.misses, maxsize,
       ((cache_info maxsize (some l) now st).1).store.length, some l,
       st.expired⟩ := by
  refine ⟨?_, ?_, rfl, rfl, rfl, rfl⟩
  · intro e he
    simp only [cache_info, sweep] at he
    have h3 := List.mem_filter.mp he
    exact ⟨h3.1, of_decide_eq_true h3.2⟩
  · intro e he hfresh
    simp only [cache_info, sweep]
    exact List.mem_filter.mpr ⟨he, decide_eq_true hfresh⟩

/-- Witness for C8: in a two-entry cache at time 50 with lifetime 45, the
entry inserted at time 10 (age 40) survives the sweep. -/
theorem cache_info_sweep_witness :
    ((0 : Nat), ((5 : Int), (10 : Int))) ∈
        ([(0, (5, 10)), (1, (6, 0))] : Store Nat Int) ∧
    (50 : Int) - 10 ≤ 45 ∧
    ((0 : Nat), ((5 : Int), (10 : Int))) ∈
      ((cache_info (K := Nat) (R := Int) (some 8) (some 45) 50
        ⟨[(0, (5, 10)), (1, (6, 0))], 2, 3, 4⟩).1).store := by
  refine ⟨by decide, by decide, ?_⟩
  exact (cache_info_sweep (some 8) 45 50
    ⟨[(0, (5, 10)), (1, (6, 0))], 2, 3, 4⟩).2.1 _ (by decide) (by decide)

/-! ## Helper lemmas for the unbounded variant's timestamps -/

lemma cacheCall_unbounded_ts_zero [DecidableEq K] (l : Int) (key : K)
    (comp : Except E R) (now : Int) (st : CacheState K R)
    (h : ∀ e ∈ st.store, e.2.2 = 0) :
    ∀ e ∈ ((cacheCall none (some l) key comp now st).2).store, e.2.2 = 0 := by
  intro e he
  simp only [cacheCall, selectVariant_unbounded] at he
  unfold unboundedCall at he
  revert he
  split
  · exact fun he => h e he
  · unfold storeMiss
    cases comp with
    | ok v =>
        intro he
        simp only at he
        rcases mem_odSet he with h1 | h1
        · exact h e h1
        · rw [h1]
    | error e' => exact fun he => h e he

lemma runCalls_unbounded_ts_zero [DecidableEq K] (l : Int)
    (calls : List (K × Except E R × Int)) (st : CacheState K R)
    (h : ∀ e ∈ st.store, e.2.2 = 0) :
    ∀ e ∈ (runCalls none (some l) calls st).store, e.2.2 = 0 := by
  induction calls generalizing st with
  | nil => simpa [runCalls] using h
  | cons c rest ih =>
      obtain ⟨key, comp, now⟩ := c
      exact ih _ (cacheCall_unbounded_ts_zero l key comp now st h)

lemma sweep_of_all_zero {s : Store K R} {l now : Int}
    (h : ∀ e ∈ s, e.2.2 = 0) (hn : l < now) :
    sweep (some l) now s = [] := by
  simp only [sweep]
  rw [List.filter_eq_nil_iff]
  intro a ha
  have := h a ha
  simp [this]
  omega

/-- C10: in the unbounded variant (`maxsize = None`), every entry ever stored
carries insertion timestamp 0 regardless of the clock readings of the calls;
consequently, with any positive finite lifetime smaller than the current
clock value, a single `cache_info` call sweeps every entry away — even one
inserted immediately before — and reports `currsize = 0`. -/
theorem unbounded_timestamps_info_sweep {K R E : Type} [DecidableEq K]
    (l now : Int) (calls : List (K × Except E R × Int))
    (_hl : 0 < l) (hn : l < now) :
    (∀ e ∈ (runCalls (E := E) none (some l) calls
        (initState (K := K) (R := R))).store, e.2.2 = 0) ∧
    ((cache_info none (some l) now
        (runCalls (E := E) none (some l) calls initState)).1).store = [] ∧
    (cache_info none (some l) now
        (runCalls (E := E) none (some l) calls initState)).2.currsize = 0 := by
  have hz := runCalls_unbounded_ts_zero (E := E) l calls
    (initState (K := K) (R := R)) (by simp [initState])
  refine ⟨hz, ?_, ?_⟩
  · simp [cache_info, sweep_of_all_zero hz hn]
  · simp [cache_info, sweep_of_all_zero hz hn]

/-- Witness for C10: a call of key 1 at time 999 followed by `cache_info`
at time 1000 with lifetime 5 reports an empty cache. -/
theorem unbounded_timestamps_info_sweep_witness :
    (0 : Int) < 5 ∧ (5 : Int) < 1000 ∧
    (cache_info (K := Nat) (R := Int) none (some 5) 1000
        (runCalls (E := Unit) none (some 5) [(1, .ok 42, 999)]
          initState)).2.currsize = 0 := by
  refine ⟨by decide, by decide, ?_⟩
  exact (unbounded_timestamps_info_sweep (K := Nat) (R := Int) (E := Unit)
    5 1000 [(1, .ok 42, 999)] (by decide) (by decide)).2.2

/-- C2 (counterexample): in every caching variant, on a miss with a normally
returning computation, the invocation of the wrapped computation does NOT
happen with the lock free — `result = user_function(*args, **kwargs)` sits
inside the `with lock:` block — so the claim that the lock is released while
the wrapped computation is invoked is false. -/
theorem computation_invoked_under_lock :
    freeDuring .evInvoke (unboundedCallEvents false true) = false ∧
    freeDuring .evInvoke (basicCallEvents false false true) = false ∧
    freeDuring .evInvoke (timedCallEvents false false false true) = false := by
  decide

/-- C2 (amended): in every caching variant and every call path, the lock is
held across lookup, freshness check, recency-order update, eviction, stale
removal, statistics increments, insertion — and also across the invocation
of the wrapped computation itself. -/
theorem lock_held_across_all_steps :
    ∀ hit present fresh needEvict compOk : Bool,
      (∀ ev ∈ [evLookup, evStats, evInvoke, evInsert],
        heldDuring ev (unboundedCallEvents hit compOk) = true) ∧
      (∀ ev ∈ [evLookup, evMoveEnd, evEvict, evStats, evInvoke, evInsert],
        heldDuring ev (basicCallEvents hit needEvict compOk) = true) ∧
      (∀ ev ∈ [evLookup, evFreshCheck, evMoveEnd, evEvict, evRemoveStale,
               evStats, evInvoke, evInsert],
        heldDuring ev (timedCallEvents present fresh needEvict compOk) = true) := by
  decide

/-- Witness for the amended C2: on the timed-LRU miss path the invocation of
the wrapped computation happens with the lock held. -/
theorem lock_held_across_all_steps_witness :
    Event.evInvoke ∈ [evLookup, evFreshCheck, evMoveEnd, evEvict,
      evRemoveStale, evStats, evInvoke, evInsert] ∧
    heldDuring .evInvoke (timedCallEvents false false false true) = true :=
  ⟨by decide,
   (lock_held_across_all_steps false false false false true).2.2 _ (by decide)⟩

/-! ## Helper lemmas about Python equality on keys -/

lemma pyEq_fast_left {v : PyVal} (hv : fasttype (typeOf v) = true)
    (l : List PyVal) : pyEq v (.tupleVal l) = false := by
  cases v with
  | intVal m => simp [pyEq]
  | strVal s => simp [pyEq]
  | _ => simp [fasttype, typeOf] at hv

lemma pyEq_fast_right {v : PyVal} (hv : fasttype (typeOf v) = true)
    (l : List PyVal) : pyEq (.tupleVal l) v = false := by
  cases v with
  | intVal m => simp [pyEq]
  | strVal s => simp [pyEq]
  | _ => simp [fasttype, typeOf] at hv

lemma pyEq_single_tuple (v w : PyVal) :
    pyEq (.tupleVal [v]) (.tupleVal [w]) = pyEq v w := by
  simp [pyEq, pyEqList]

/-- Shape of a `_make_key` result: either the full tuple over the key
sequence, or (untyped, single-element key of a fast type) the unwrapped bare
element. -/
lemma make_key_cases (args : List PyVal) (kw : List (String × PyVal))
    (typed : Bool) :
    make_key args kw typed = .tupleVal (makeKeySeq args kw typed) ∨
    (∃ v, makeKeySeq args kw typed = [v] ∧ fasttype (typeOf v) = true ∧
      make_key args kw typed = v) := by
  unfold make_key
  cases typed with
  | true => left; simp
  | false =>
      simp only [Bool.false_eq_true, if_false]
      rcases hs : makeKeySeq args kw false with _ | ⟨v, _ | ⟨w, rest⟩⟩
      · left
        rfl
      · by_cases hf : fasttype (typeOf v) = true
        · right
          exact ⟨v, rfl, hf, by simp [hf]⟩
        · left
          simp [hf]
      · left
        rfl

/-- C7 (counterexample): the single-element unwrapping does change observable
key equality. For the calls `f(1)` and `f(True)` (no keyword arguments,
`typed` off), the full-sequence keys `(1,)` and `(True,)` are equal under
Python equality (`1 == True`), but the fast-path keys — the bare `1` versus
the tuple `(True,)`, since `bool` is not a fast type — are not equal. -/
theorem make_key_unwrap_changes_equality :
    pyEq (make_key_full [.intVal 1] [] false)
        (make_key_full [.boolVal true] [] false) = true ∧
    pyEq (make_key [.intVal 1] [] false)
        (make_key [.boolVal true] [] false) = false := by
  decide

/-- C7 (amended): the unwrapping fast path never merges keys — if two
fast-path keys are equal then the full-sequence keys are equal — but (per
the counterexample) not conversely: it can split keys the full-sequence
scheme would identify. -/
theorem make_key_unwrap_sound (args1 args2 : List PyVal)
    (kw1 kw2 : List (String × PyVal)) (typed : Bool)
    (h : pyEq (make_key args1 kw1 typed) (make_key args2 kw2 typed) = true) :
    pyEq (make_key_full args1 kw1 typed)
      (make_key_full args2 kw2 typed) = true := by
  unfold make_key_full
  rcases make_key_cases args1 kw1 typed with h1 | ⟨v1, hs1, hf1, he1⟩
  · rcases make_key_cases args2 kw2 typed with h2 | ⟨v2, hs2, hf2, he2⟩
    · rw [h1, h2] at h
      exact h
    · rw [h1, he2] at h
      rw [pyEq_fast_right hf2] at h
      exact absurd h (by simp)
  · rcases make_key_cases args2 kw2 typed with h2 | ⟨v2, hs2, hf2, he2⟩
    · rw [he1, h2] at h
      rw [pyEq_fast_left hf1] at h
      exact absurd h (by simp)
    · rw [he1, he2] at h
      rw [hs1, hs2, pyEq_single_tuple]
      exact h

/-- Witness for the amended C7: two calls with the same single fast-type
argument have equal fast-path keys, and indeed equal full keys. -/
theorem make_key_unwrap_sound_witness :
    pyEq (make_key [.intVal 2] [] false) (make_key [.intVal 2] [] false)
      = true ∧
    pyEq (make_key_full [.intVal 2] [] false)
      (make_key_full [.intVal 2] [] false) = true :=
  ⟨by decide, make_key_unwrap_sound [.intVal 2] [.intVal 2] [] [] false
    (by decide)⟩

/-- C9: with `lifetime` a float and `typed` a boolean (their default values
are `60.0` and `False`), the wrap-time `TypeError` of `tlru_cache` is raised
exactly when the first configuration argument is neither an integer
(booleans included, as `bool` subclasses `int`), nor `None`, nor a
callable. -/
theorem tlru_cache_first_arg_validation (a lt tp : PyArg)
    (hf : isInstFloat lt = true) (hb : isInstBool tp = true) :
    tlru_cache_raises a lt tp = true ↔
      (isInstInt a = false ∧ isCallable a = false ∧ a ≠ .noneArg) := by
  cases lt <;> simp [isInstFloat] at hf
  cases tp <;> simp [isInstBool] at hb
  cases a <;>
    simp [tlru_cache_raises, isInstInt, isCallable, isInstFloat, isInstBool]

/-- Witness for C9: a string first argument, with the default-shaped
`lifetime` (a float) and `typed` (a boolean), raises. -/
theorem tlru_cache_first_arg_validation_witness :
    isInstFloat .floatArg = true ∧ isInstBool (.boolArg false) = true ∧
    (tlru_cache_raises (.strArg "x") .floatArg (.boolArg false) = true ↔
      (isInstInt (.strArg "x") = false ∧ isCallable (.strArg "x") = false ∧
        (PyArg.strArg "x") ≠ .noneArg)) :=
  ⟨by decide, by decide,
   tlru_cache_first_arg_validation _ _ _ (by decide) (by decide)⟩

end TlruCache

